import Mathlib

/-!
Verification development for the purchase-order extractor
(src/extractor.py, with the row assembly shared by src/streamlit_app.py).

Modelling conventions:
* Python strings are Lean `String`s; most operations are written over the
  underlying character lists.
* Python floats are modelled exactly by `Rat` (the numeric strings flowing
  through the program have the shape digits.digits, which parses exactly);
  `round(x, 4)` is modelled as round-half-to-even at 4 decimal places and
  `str` of the result as the shortest decimal rendering with at least one
  fractional digit.
* The regular expressions of the source are modelled by executable character
  scanners that follow the semantics of the concrete patterns used
  (leftmost match, greedy quantifiers with the backtracking the concrete
  pattern allows).
-/

/-- Whitespace as used by Python str.strip / str.split and the regex class
for whitespace, restricted to the ASCII whitespace characters. -/
def pyWsChar (c : Char) : Bool :=
  c = ' ' || c = '\t' || c = '\n' || c = '\r' || c = Char.ofNat 11 || c = Char.ofNat 12

/-- Leading-whitespace removal. -/
def dropLeadWs (l : List Char) : List Char := l.dropWhile pyWsChar

/-- Trailing-whitespace removal. -/
def dropTrailWs : List Char → List Char
  | [] => []
  | c :: t =>
    match dropTrailWs t with
    | [] => if pyWsChar c then [] else [c]
    | r => c :: r

/-- Python str.strip over character lists. -/
def stripChars (l : List Char) : List Char := dropTrailWs (dropLeadWs l)

/-- Python str.strip. -/
def pyStrip (s : String) : String := String.mk (stripChars s.data)

/-- Helper for whitespace splitting: accumulates the current word reversed. -/
def splitWsAux : List Char → List Char → List String
  | cur, [] => if cur.isEmpty then [] else [String.mk cur.reverse]
  | cur, c :: t =>
    if pyWsChar c then
      if cur.isEmpty then splitWsAux [] t
      else String.mk cur.reverse :: splitWsAux [] t
    else splitWsAux (c :: cur) t

/-- Python str.split with no argument: split on whitespace runs, no empties. -/
def pySplitWords (s : String) : List String := splitWsAux [] s.data

/-- Python " ".join. -/
def joinSpace : List String → String
  | [] => ""
  | [w] => w
  | w :: v :: t => w ++ " " ++ joinSpace (v :: t)

/-- ASCII lower-casing of one character (Python str.lower / re.IGNORECASE on
the ASCII range). -/
def lowChar (c : Char) : Char :=
  if 65 ≤ c.toNat ∧ c.toNat ≤ 90 then Char.ofNat (c.toNat + 32) else c

/-- Lower-case a character list. -/
def lowList (l : List Char) : List Char := l.map lowChar

/-- Python str.lower. -/
def lowerStr (s : String) : String := String.mk (lowList s.data)

/-- Word character of the regex class: letters, digits, underscore
(ASCII model). -/
def isWordChar (c : Char) : Bool := c.isAlpha || c.isDigit || c = '_'

/-- Search for a decimal-number token (digits, dot, digits) anywhere in a
character list: such a match exists iff some digit is immediately followed by
a dot and another digit. -/
def hasFloatTok : List Char → Bool
  | a :: b :: c :: t => (a.isDigit && b = '.' && c.isDigit) || hasFloatTok (b :: c :: t)
  | _ => false

/-- Test for the whole word Each (case-insensitive) at the head of the list,
given whether the previous character was a word character. -/
def eachAt (prevWord : Bool) : List Char → Bool
  | e :: a :: c :: h :: rest =>
    !prevWord && lowChar e = 'e' && lowChar a = 'a' && lowChar c = 'c' && lowChar h = 'h'
      && (match rest with | [] => true | d :: _ => !isWordChar d)
  | _ => false

/-- Scanner for the whole word Each (case-insensitive) with word boundaries. -/
def hasEachAux (prevWord : Bool) : List Char → Bool
  | [] => false
  | c :: t => eachAt prevWord (c :: t) || hasEachAux (isWordChar c) t

/-- Search for the whole word Each (case-insensitive) in a string. -/
def hasEachWord (s : String) : Bool := hasEachAux false s.data

/-- The middle-of-span test of clean_description: the middle contains the
word Each (case-insensitive) or a decimal-number token. -/
def middleHasArtifact (mid : String) : Bool := hasEachWord mid || hasFloatTok mid.data

/-- Python max(a, b, key=len): returns the second argument only when it is
strictly longer. -/
def maxByLen (a b : String) : String := if a.length < b.length then b else a

/-- The loop of clean_description: candidate span lengths from the given
bound down to 1; on a case-insensitively equal prefix/suffix span whose
middle contains Each or a decimal token, return the longer span
(first argument on ties), stripped. -/
def collapseSearch (words : List String) : Nat → Option String
  | 0 => none
  | n + 1 =>
    let startSub := joinSpace (words.take (n + 1))
    let endSub := joinSpace (words.drop (words.length - (n + 1)))
    if lowerStr startSub = lowerStr endSub then
      if middleHasArtifact (joinSpace ((words.drop (n + 1)).take (words.length - 2 * (n + 1)))) then
        some (pyStrip (maxByLen startSub endSub))
      else collapseSearch words n
    else collapseSearch words n

/-- clean_description from src/extractor.py. -/
def clean_description (desc : String) : String :=
  let d := pyStrip desc
  if d = "" then ""
  else
    let words := pySplitWords d
    match collapseSearch words (words.length / 2) with
    | some r => r
    | none => d

example : clean_description "Bracket Mount Each 2.50 Bracket Mount" = "Bracket Mount" := by decide
example : clean_description "a 1.5 a Each a 1.5 a" = "a 1.5 a" := by decide
example : clean_description "a 1.5 a" = "a" := by decide
example : clean_description "ABC 1.5 abc" = "ABC" := by decide

/-- Exact shape of the pattern digits-dot-digits anchored on both ends
(the float-line test of parse_block). -/
def floatShape (l : List Char) : Bool :=
  match l.dropWhile Char.isDigit with
  | '.' :: rest => !(l.takeWhile Char.isDigit).isEmpty && !rest.isEmpty && rest.all Char.isDigit
  | _ => false

/-- Exact match of digits-dot-digits on a string. -/
def floatExact (s : String) : Bool := floatShape s.data

/-- Numeric value of a digit run, most significant first. -/
def natOfDigitsAux (acc : Nat) : List Char → Nat
  | [] => acc
  | c :: t => natOfDigitsAux (acc * 10 + (c.toNat - 48)) t

/-- Exact rational, as an integer numerator over a positive natural
denominator (the exact model of the Python floats of this pipeline). -/
structure PyNum where
  num : Int
  den : Nat
deriving DecidableEq, Repr

/-- Strict numeric order on exact rationals (cross multiplication;
denominators are positive for every value built here). -/
def pnLt (a b : PyNum) : Bool := a.num * (b.den : Int) < b.num * (a.den : Int)

/-- Numeric order on exact rationals. -/
def pnLe (a b : PyNum) : Bool := a.num * (b.den : Int) ≤ b.num * (a.den : Int)

/-- Numeric zero test. -/
def pnZero (a : PyNum) : Bool := a.num = 0

/-- Exact division of rationals (the divisor is nonzero wherever this is
called). -/
def pnDiv (a b : PyNum) : PyNum :=
  if b.num < 0 then { num := -(a.num * (b.den : Int)), den := a.den * (-b.num).toNat }
  else { num := a.num * (b.den : Int), den := a.den * b.num.toNat }

/-- Exact numeric value of a digits-dot-digits string (models Python float()
on the numeric strings of this program). -/
def ratVal (s : String) : PyNum :=
  let ip := natOfDigitsAux 0 (s.data.takeWhile Char.isDigit)
  match s.data.dropWhile Char.isDigit with
  | '.' :: fr =>
    { num := Int.ofNat (ip * 10 ^ fr.length + natOfDigitsAux 0 fr), den := 10 ^ fr.length }
  | _ => { num := Int.ofNat ip, den := 1 }

/-- Python max(iterable, key=float) over a nonempty list given as head and
tail: the current best is replaced only by a strictly larger value, so the
first-encountered maximal element is kept. -/
def pyMaxRat (x : String) (xs : List String) : String :=
  xs.foldl (fun b y => if pnLt (ratVal b) (ratVal y) then y else b) x

/-- Round-half-to-even to the nearest integer (Python round on the exact
value). -/
def roundHalfEven (q : PyNum) : Int :=
  let f : Int := Int.fdiv q.num (q.den : Int)
  let rNum : Int := q.num - f * (q.den : Int)
  if 2 * rNum < (q.den : Int) then f
  else if (q.den : Int) < 2 * rNum then f + 1
  else if f % 2 = 0 then f else f + 1

/-- Decimal digit character. -/
def digitChar (n : Nat) : Char := Char.ofNat (48 + n % 10)

/-- Decimal digits of a natural number, with fuel. -/
def natDigitsAux : Nat → Nat → List Char
  | 0, _ => []
  | fuel + 1, n => if n < 10 then [digitChar n] else natDigitsAux fuel (n / 10) ++ [digitChar (n % 10)]

/-- Decimal rendering of a natural number. -/
def natToStr (n : Nat) : String := String.mk (natDigitsAux (n + 1) n)

/-- Left-pad a digit list with zeros to width 4. -/
def pad4 (l : List Char) : List Char := List.replicate (4 - l.length) '0' ++ l

/-- Remove trailing zero characters. -/
def dropTrailZeros (l : List Char) : List Char := (l.reverse.dropWhile (fun c => c == '0')).reverse

/-- Model of Python str(round(q, 4)) for the nonnegative quantities of this
pipeline: round half to even at 4 decimal places, then render with the
trailing fractional zeros removed but at least one fractional digit. -/
def pyRound4Str (q : PyNum) : String :=
  let m := (roundHalfEven { num := q.num * 10000, den := q.den }).toNat
  let frChars := dropTrailZeros (pad4 (natToStr (m % 10000)).data)
  natToStr (m / 10000) ++ "." ++ String.mk (if frChars.isEmpty then ['0'] else frChars)

example : pyRound4Str (pnDiv (ratVal "21.0000") (ratVal "10.5000")) = "2.0" := by decide
example : pyRound4Str { num := 1, den := 3 } = "0.3333" := by decide
example : pyRound4Str { num := 25, den := 10 } = "2.5" := by decide

/-- Python str.startswith. -/
def pyStartsWith (pre s : String) : Bool := pre.data.isPrefixOf s.data

/-- The first-line-after loop of parse_block: the first line that starts with
the given text and has a successor; returns the successor index and its
stripped text. -/
def findAfter (pre : String) (i : Nat) : List String → Option (Nat × String)
  | [] => none
  | [_] => none
  | x :: y :: t =>
    if pyStartsWith pre x then some (i + 1, pyStrip y) else findAfter pre (i + 1) (y :: t)

/-- Tail of the revision-line pattern: at least one whitespace character then
a word character. -/
def revTailOk (l : List Char) : Bool :=
  !(l.takeWhile pyWsChar).isEmpty &&
    (match l.dropWhile pyWsChar with | c :: _ => isWordChar c | [] => false)

/-- Match of the revision-line pattern (Rev or REV, whitespace, a word
character) at the start of a line. -/
def revMatch (s : String) : Bool :=
  match s.data with
  | 'R' :: b :: c :: t => ((b = 'e' && c = 'v') || (b = 'E' && c = 'V')) && revTailOk t
  | _ => false

/-- First line matching the revision pattern, with its index. -/
def findRev (i : Nat) : List String → Option (Nat × String)
  | [] => none
  | x :: t => if revMatch x then some (i, x) else findRev (i + 1) t

/-- Match of the digits-only pattern anchored on both ends. -/
def intOnly (s : String) : Bool := !s.data.isEmpty && s.data.all Char.isDigit

/-- Backward scan of parse_block: from index j down to 0, the first line
whose stripped text is digits-only. -/
def findIntDown (bl : List String) : Nat → Option Nat
  | 0 => if intOnly (pyStrip (bl.getD 0 "")) then some 0 else none
  | j + 1 => if intOnly (pyStrip (bl.getD (j + 1) "")) then some (j + 1) else findIntDown bl j

/-- The float-like lines of a block: exact digits-dot-digits matches other
than the literal 0.0000. -/
def floatLines (bl : List String) : List String :=
  bl.filter (fun ln => floatExact ln && ln != "0.0000")

/-- Price field: the first float-like line, else empty. -/
def blockPrice (bl : List String) : String :=
  match floatLines bl with | [] => "" | x :: _ => x

/-- Total field: the float-like line of maximal numeric value (first
encountered on ties), else empty. -/
def blockTotal (bl : List String) : String :=
  match floatLines bl with | [] => "" | x :: xs => pyMaxRat x xs

/-- Quantity field: total divided by price, rounded to 4 decimal places and
rendered, when both are set; empty when either is missing or the price is
zero (the ZeroDivisionError branch of the source). -/
def blockQuantity (bl : List String) : String :=
  let p := blockPrice bl
  let t := blockTotal bl
  if p ≠ "" ∧ t ≠ "" then
    if pnZero (ratVal p) then "" else pyRound4Str (pnDiv (ratVal t) (ratVal p))
  else ""

/-- Description source lines, given the index of the item-code value line:
after a revision line when one exists, else after the nearest digits-only
line before the item code, else everything before the item code. -/
def descSourceLines (bl : List String) (ici : Nat) : List String :=
  match findRev 0 bl with
  | some (ri, _) => (bl.drop (ri + 1)).take (ici - (ri + 1))
  | none =>
    match findIntDown bl (ici - 1) with
    | some j => (bl.drop (j + 1)).take (ici - (j + 1))
    | none => bl.take ici

/-- Description field: only computed when an item-code line was found; drops
lines that are blank or start with the item-code label, joins with single
spaces, strips, and cleans. -/
def blockDescription (bl : List String) : String :=
  match findAfter "Item Code:" 0 bl with
  | none => ""
  | some (ici, _) =>
    let ds := (descSourceLines bl ici).filter
      (fun l => !pyStartsWith "Item Code:" (pyStrip l) && !(pyStrip l).isEmpty)
    clean_description (pyStrip (joinSpace ds))

/-- One parsed item record (the dictionary built by parse_block). -/
structure ItemData where
  itemCode : String
  deliveryDate : String
  description : String
  itemDetails : String
  uom : String
  quantity : String
  price : String
  total : String
deriving DecidableEq, Repr

/-- parse_block from src/extractor.py. -/
def parse_block (bl : List String) : ItemData :=
  { itemCode := ((findAfter "Item Code:" 0 bl).map Prod.snd).getD ""
    deliveryDate := ((findAfter "Delivery Date:" 0 bl).map Prod.snd).getD ""
    description := blockDescription bl
    itemDetails := ((findRev 0 bl).map Prod.snd).getD ""
    uom := if bl.any (fun l => l == "Each") then "Each" else ""
    quantity := blockQuantity bl
    price := blockPrice bl
    total := blockTotal bl }

example :
    parse_block ["Delivery Date:", "01/02/2024", "Item Code:", "ABC123",
      "10.5000", "21.0000", "Each"] =
    { itemCode := "ABC123", deliveryDate := "01/02/2024",
      description := "Delivery Date: 01/02/2024",
      itemDetails := "", uom := "Each", quantity := "2.0",
      price := "10.5000", total := "21.0000" } := by decide

/-- Removal of space characters only (Python str.replace of a space by
nothing, applied to the two-line marker concatenation). -/
def removeSpaces (s : String) : String := String.mk (s.data.filter (fun c => !(c == ' ')))

/-- Remainder of a character list after exactly k digits, if present. -/
def takeDigits : Nat → List Char → Option (List Char)
  | 0, l => some l
  | k + 1, c :: t => if c.isDigit then takeDigits k t else none
  | _ + 1, [] => none

/-- One alternative of the date pattern: d digits, slash, m digits, slash,
4 digits, at the head of the list; returns the remainder. -/
def dateShapeDM (d m : Nat) (l : List Char) : Option (List Char) :=
  match takeDigits d l with
  | some ('/' :: r2) =>
    match takeDigits m r2 with
    | some ('/' :: r4) => takeDigits 4 r4
    | _ => none
  | _ => none

/-- Prefix match of the date pattern one-or-two digits, slash, one-or-two
digits, slash, four digits (re.match semantics: anchored at the start only,
greedy with backtracking on the one-or-two-digit groups). -/
def dateMatchLine (s : String) : Bool :=
  (dateShapeDM 2 2 s.data).isSome || (dateShapeDM 2 1 s.data).isSome
    || (dateShapeDM 1 2 s.data).isSome || (dateShapeDM 1 1 s.data).isSome

/-- Substring scan. -/
def hasSubAux (pat : List Char) : List Char → Bool
  | [] => pat.isEmpty
  | c :: t => pat.isPrefixOf (c :: t) || hasSubAux pat t

/-- Case-insensitive search for the substring page. -/
def containsPage (s : String) : Bool := hasSubAux ['p', 'a', 'g', 'e'] (lowList s.data)

/-- The table stop marker test. -/
def stopLine (s : String) : Bool := pyStartsWith "▌Tax Details" s

/-- The delivery-date label test. -/
def ddLine (s : String) : Bool := pyStartsWith "Delivery Date:" s

/-- The mutable state of the segmentation loop of extract_item_blocks. -/
structure SegState where
  insideTable : Bool
  blocks : List ItemData
  currentBlock : List String
  waitingForDate : Bool
  prevLine : String
  startMarkerFound : Bool
deriving DecidableEq, Repr

/-- Initial segmentation state. -/
def segInit : SegState :=
  { insideTable := false, blocks := [], currentBlock := [], waitingForDate := false,
    prevLine := "", startMarkerFound := false }

/-- One iteration of the line loop of extract_item_blocks. -/
def segStep (s : SegState) (line : String) : SegState :=
  let ls := pyStrip line
  if s.insideTable = false then
    if removeSpaces (s.prevLine ++ ls) = "Tax%Tax%" then
      { s with insideTable := true, prevLine := "", startMarkerFound := true }
    else if ls = "Tax %" then { s with prevLine := ls }
    else { s with prevLine := ls }
  else if stopLine ls then { s with insideTable := false }
  else
    let cb := s.currentBlock ++ [ls]
    if ddLine ls then { s with currentBlock := cb, waitingForDate := true }
    else if s.waitingForDate then
      if dateMatchLine ls then
        if (cb ++ [ls]).any containsPage then
          { s with
            currentBlock := [], waitingForDate := false, insideTable := false,
            prevLine := "" }
        else
          { s with
            blocks := s.blocks ++ [parse_block (cb ++ [ls])],
            currentBlock := [], waitingForDate := false }
      else { s with currentBlock := cb }
    else { s with currentBlock := cb }

/-- The whole line loop. -/
def segRun (lines : List String) : SegState := lines.foldl segStep segInit

/-- True when the previous original character exists and is a digit. -/
def isDigitO : Option Char → Bool
  | some c => c.isDigit
  | none => false

/-- True when the next original character exists and is a digit. -/
def headDigit : List Char → Bool
  | c :: _ => c.isDigit
  | [] => false

/-- Deletion of every comma whose previous and next characters in the
original text are digits (the thousands-separator normalization). -/
def delCommasAux (prev : Option Char) : List Char → List Char
  | [] => []
  | c :: t =>
    if c = ',' && isDigitO prev && headDigit t then delCommasAux (some c) t
    else c :: delCommasAux (some c) t

/-- The line normalization applied before segmentation. -/
def normalizeThousands (s : String) : String := String.mk (delCommasAux none s.data)

/-- Newline splitting, accumulating the current line reversed. -/
def splitNlAux (cur : List Char) : List Char → List String
  | [] => [String.mk cur.reverse]
  | c :: t => if c = '\n' then String.mk cur.reverse :: splitNlAux [] t else splitNlAux (c :: cur) t

/-- Drop a final empty piece (the effect of a trailing newline). -/
def dropFinalEmpty : List String → List String
  | [] => []
  | [x] => if x = "" then [] else [x]
  | x :: y :: t => x :: dropFinalEmpty (y :: t)

/-- Python str.splitlines for newline-separated text. -/
def pySplitlines (s : String) : List String :=
  if s = "" then [] else dropFinalEmpty (splitNlAux [] s.data)

/-- A single-quote character, for the error message. -/
def sqStr : String := String.mk [Char.ofNat 39]

/-- The format-mismatch message of extract_item_blocks. -/
def mismatchMsg (docName : String) : String :=
  "❌ " ++ sqStr ++ docName ++ sqStr ++ " cannot convert to CSV, maybe format mismatch."

deriving instance DecidableEq for Except

/-- extract_item_blocks from src/extractor.py, from the concatenated page
text on: normalizes thousands separators, splits into lines, runs the
segmentation loop, and reports a format mismatch when no start marker was
found. -/
def extract_item_blocks (docName : String) (fullText : String) : Except String (List ItemData) :=
  let st := segRun (pySplitlines (normalizeThousands fullText))
  if st.startMarkerFound then Except.ok st.blocks else Except.error (mismatchMsg docName)

example :
    extract_item_blocks "a.pdf" "x\nTax %\nTax %\nItem Code:\nA1\nDelivery Date:\n1/2/2024\n▌Tax Details" =
    Except.ok [parse_block ["Item Code:", "A1", "Delivery Date:", "1/2/2024", "1/2/2024"]] := by decide

example :
    extract_item_blocks "a.pdf" "hello\nworld" = Except.error (mismatchMsg "a.pdf") := by decide

/-- Word boundary at the given remainder: end of text or a non-word
character. -/
def wordBoundaryAfter : List Char → Bool
  | [] => true
  | c :: _ => !isWordChar c

/-- Match of PO-then-digits (case-insensitive) with a trailing word boundary
at the head of the list; a word boundary before the head is checked by the
caller. The digit run is maximal: if the maximal run is followed by a word
character, every shorter run is followed by a digit, so no backtracking can
succeed. -/
def poAt : List Char → Option String
  | p :: o :: rest =>
    if (p == 'P' || p == 'p') && (o == 'O' || o == 'o') then
      if !(rest.takeWhile Char.isDigit).isEmpty
          && wordBoundaryAfter (rest.dropWhile Char.isDigit) then
        some (String.mk (p :: o :: rest.takeWhile Char.isDigit))
      else none
    else none
  | _ => none

/-- Leftmost search for the document-number pattern, tracking whether the
previous character was a word character (the leading word boundary). -/
def searchPOAux (prevWord : Bool) : List Char → Option String
  | [] => none
  | c :: t =>
    match (if prevWord then none else poAt (c :: t)) with
    | some r => some r
    | none => searchPOAux (isWordChar c) t

/-- One alternative of the bounded date token: the date shape followed by a
word boundary. -/
def dateBounded (d m : Nat) (l : List Char) : Bool :=
  match dateShapeDM d m l with
  | some r => wordBoundaryAfter r
  | none => false

/-- The date token matched at the head of the list, trying the alternatives
in the backtracking order of the greedy one-or-two-digit groups. -/
def dateAt (l : List Char) : Option String :=
  if dateBounded 2 2 l then some (String.mk (l.take 10))
  else if dateBounded 2 1 l then some (String.mk (l.take 9))
  else if dateBounded 1 2 l then some (String.mk (l.take 9))
  else if dateBounded 1 1 l then some (String.mk (l.take 8))
  else none

/-- Leftmost search for the bounded date token. -/
def searchDateAux (prevWord : Bool) : List Char → Option String
  | [] => none
  | c :: t =>
    match (if prevWord then none else dateAt (c :: t)) with
    | some r => some r
    | none => searchDateAux (isWordChar c) t

/-- Case-insensitive match of a lower-case literal at the head of the
list. -/
def ciHasAt (pat : List Char) (l : List Char) : Bool := pat.isPrefixOf (lowList l)

/-- The capture class of the reference pattern: word characters, hyphen,
dot, slash. -/
def isRefChar (c : Char) : Bool := isWordChar c || c = '-' || c = '.' || c = '/'

/-- Capture of the reference pattern at a position where the literal
matched: at least one whitespace character, then a possibly empty run of
capture-class characters. -/
def refCaptureAt (l : List Char) : Option String :=
  let rest := l.drop 14
  if (rest.takeWhile pyWsChar).isEmpty then none
  else some (String.mk ((rest.dropWhile pyWsChar).takeWhile isRefChar))

/-- Leftmost search for the reference pattern. -/
def searchRefAux : List Char → Option String
  | [] => none
  | c :: t =>
    match (if ciHasAt ['y', 'o', 'u', 'r', ' ', 'r', 'e', 'f', 'e', 'r', 'e', 'n', 'c', 'e'] (c :: t)
           then refCaptureAt (c :: t) else none) with
    | some r => some r
    | none => searchRefAux t

/-- Capture of the payment-term pattern at a position where the literal
matched: greedy whitespace, then at least one non-newline character up to
the end of the line; when only whitespace remains, the greedy run backtracks
to the last non-newline whitespace character, and fails only if every
remaining character is a newline. -/
def payCaptureAt (l : List Char) : Option String :=
  let rest := l.drop 13
  match rest.dropWhile pyWsChar with
  | _ :: _ => some (String.mk ((rest.dropWhile pyWsChar).takeWhile (fun x => !(x == '\n'))))
  | [] =>
    match (rest.takeWhile pyWsChar).reverse.dropWhile (fun x => x == '\n') with
    | [] => none
    | c :: _ => some (String.mk [c])

/-- Leftmost search for the payment-term pattern. -/
def searchPayAux : List Char → Option String
  | [] => none
  | c :: t =>
    match (if ciHasAt ['p', 'a', 'y', 'm', 'e', 'n', 't', ' ', 't', 'e', 'r', 'm', ':'] (c :: t)
           then payCaptureAt (c :: t) else none) with
    | some r => some r
    | none => searchPayAux t

/-- The header record extracted per document. -/
structure HeaderInfo where
  documentNumber : String
  reference : String
  paymentTerm : String
  documentDate : String
deriving DecidableEq, Repr

/-- extract_po_info from src/extractor.py, from the concatenated page text
on: the four pattern searches run directly on that text. -/
def extract_po_info (fullText : String) : HeaderInfo :=
  { documentNumber := (searchPOAux false fullText.data).getD ""
    reference :=
      match searchRefAux fullText.data with
      | some cap => if lowerStr (pyStrip cap) = "your" then "" else pyStrip cap
      | none => ""
    paymentTerm := ((searchPayAux fullText.data).map pyStrip).getD ""
    documentDate := (searchDateAux false fullText.data).getD "" }

example : (extract_po_info "order PO998877\nYour Reference\nPayment Term: Net 30\ndated 1/2/2024 x").documentNumber = "PO998877" := by decide
example : (extract_po_info "order PO998877\nYour Reference\nPayment Term: Net 30\ndated 1/2/2024 x").reference = "Payment" := by decide
example : (extract_po_info "order PO998877 Your Reference").reference = "" := by decide
example : (extract_po_info "Your Reference\nYour Name").reference = "" := by decide
example : (extract_po_info "order PO998877\nYour Reference\nPayment Term: Net 30\ndated 1/2/2024 x").paymentTerm = "Net 30" := by decide
example : (extract_po_info "order PO998877\nYour Reference\nPayment Term: Net 30\ndated 1/2/2024 x").documentDate = "1/2/2024" := by decide
example : (extract_po_info "Your Reference ab-12/c").reference = "ab-12/c" := by decide

/-- Header extraction as the specification describes the data flow: the
pattern searches operate on the same comma-normalized text that feeds the
segmenter. -/
def headerOnNormalized (fullText : String) : HeaderInfo :=
  extract_po_info (normalizeThousands fullText)

/-- One flat output row (the dictionary built per item in the assembly
loops of main and process_files). -/
structure OutputRow where
  documentNumber : String
  reference : String
  itemCode : String
  poIssueDate : String
  deliveryDate : String
  description : String
  itemDetails : String
  uom : String
  quantity : String
  price : String
  total : String
  paymentTerm : String
deriving DecidableEq, Repr

/-- The row built from a header record and one parsed item. -/
def rowOf (po : HeaderInfo) (b : ItemData) : OutputRow :=
  { documentNumber := po.documentNumber, reference := po.reference
    itemCode := b.itemCode, poIssueDate := po.documentDate
    deliveryDate := b.deliveryDate, description := b.description
    itemDetails := b.itemDetails, uom := b.uom, quantity := b.quantity
    price := b.price, total := b.total, paymentTerm := po.paymentTerm }

/-- The per-document assembly loop shared by main (extractor.py) and
process_files (streamlit_app.py): each parsed item contributes one row,
except that every item is skipped when the document date is empty. -/
def assembleRows (po : HeaderInfo) (blocks : List ItemData) : List OutputRow :=
  blocks.filterMap (fun b => if po.documentDate = "" then none else some (rowOf po b))

/-- The line immediately following the first line that starts with the given
text, as the delivery-date field is described: the first matching line that
has a successor determines the value. -/
def lineAfterFirstMatch (pre : String) : List String → Option String
  | [] => none
  | l :: rest => if pyStartsWith pre l then rest.head? else lineAfterFirstMatch pre rest

/-- Strict lexicographic order on character lists by code point. -/
def lexLtChars : List Char → List Char → Bool
  | [], [] => false
  | [], _ :: _ => true
  | _ :: _, [] => false
  | a :: s, b :: t =>
    if a.toNat < b.toNat then true else if b.toNat < a.toNat then false else lexLtChars s t

/-- Span selection as the specification words it: whichever span is longer,
with ties between equal-length spans broken by lexicographic comparison. -/
def maxLexTie (a b : String) : String :=
  if b.length < a.length then a
  else if a.length < b.length then b
  else if lexLtChars a.data b.data then b else a

/-- The cleaning loop with the selection rule of the specification
(lexicographic tie-break). -/
def collapseSearchLex (words : List String) : Nat → Option String
  | 0 => none
  | n + 1 =>
    let startSub := joinSpace (words.take (n + 1))
    let endSub := joinSpace (words.drop (words.length - (n + 1)))
    if lowerStr startSub = lowerStr endSub then
      if middleHasArtifact (joinSpace ((words.drop (n + 1)).take (words.length - 2 * (n + 1)))) then
        some (pyStrip (maxLexTie startSub endSub))
      else collapseSearchLex words n
    else collapseSearchLex words n

/-- The Description Cleaner as the specification words its selection rule:
the longer of the two spans, ties broken by lexicographic comparison. -/
def cleanDescriptionLex (desc : String) : String :=
  let d := pyStrip desc
  if d = "" then ""
  else
    let words := pySplitWords d
    match collapseSearchLex words (words.length / 2) with
    | some r => r
    | none => d

/-- The cleaning loop with the selection resolved to the prefix span. -/
def collapseSearchFirst (words : List String) : Nat → Option String
  | 0 => none
  | n + 1 =>
    let startSub := joinSpace (words.take (n + 1))
    let endSub := joinSpace (words.drop (words.length - (n + 1)))
    if lowerStr startSub = lowerStr endSub then
      if middleHasArtifact (joinSpace ((words.drop (n + 1)).take (words.length - 2 * (n + 1)))) then
        some (pyStrip startSub)
      else collapseSearchFirst words n
    else collapseSearchFirst words n

/-- The Description Cleaner with the selection rule stated directly as
returning the prefix span (the corrected reading of the tie-break). -/
def cleanDescriptionFirstSpan (desc : String) : String :=
  let d := pyStrip desc
  if d = "" then ""
  else
    let words := pySplitWords d
    match collapseSearchFirst words (words.length / 2) with
    | some r => r
    | none => d

/-- Removal of every whitespace character. -/
def stripAllWs (s : String) : String := String.mk (s.data.filter (fun c => !pyWsChar c))

/-- The start-marker pattern as the claim words it, over consecutive line
pairs only: no two consecutive lines have a whitespace-stripped
concatenation equal to the marker text. -/
def pairsNoMarker : List String → Bool
  | a :: b :: t =>
    !(stripAllWs (pyStrip a ++ pyStrip b) == "Tax%Tax%") && pairsNoMarker (b :: t)
  | _ => true

/-- Absence of the start marker as the segmenter actually tests it: the
previous trimmed line (initially empty) concatenated with the current
trimmed line, spaces removed, never equals the marker text. -/
def noMarkerFrom (prev : String) : List String → Bool
  | [] => true
  | l :: t =>
    !(removeSpaces (prev ++ pyStrip l) == "Tax%Tax%") && noMarkerFrom (pyStrip l) t

/-- The previous-line memory after scanning the given lines. -/
def lastPrev (prev : String) : List String → String
  | [] => prev
  | l :: t => lastPrev (pyStrip l) t

/-- A comma immediately preceded and followed by a digit occurs somewhere
(the condition under which the thousands normalization changes the text). -/
def hasDCDFrom (prev : Option Char) : List Char → Bool
  | [] => false
  | c :: t => (c = ',' && isDigitO prev && headDigit t) || hasDCDFrom (some c) t

/-- A digit-comma-digit occurrence exists in the string. -/
def hasThousandsComma (s : String) : Bool := hasDCDFrom none s.data

/-! Helper lemmas. -/

theorem ratVal_den_pos (s : String) : 0 < ((ratVal s).den : Int) := by
  unfold ratVal
  cases h : s.data.dropWhile Char.isDigit with
  | nil => simp
  | cons c t =>
    by_cases hc : c = '.'
    · subst hc
      simp only []
      exact_mod_cast pow_pos (by norm_num : (0 : Int) < 10) t.length
    · cases c with
      | mk v hv =>
        simp only []
        split
        · exact_mod_cast pow_pos (by norm_num : (0 : Int) < 10) _
        · simp

theorem pnLe_of_not_lt {a b : PyNum} (h : ¬ pnLt a b = true) : pnLe b a = true := by
  simp only [pnLt, decide_eq_true_eq] at h
  simp only [pnLe, decide_eq_true_eq]
  exact Int.not_lt.mp h

theorem pnLe_of_lt {a b : PyNum} (h : pnLt a b = true) : pnLe a b = true := by
  simp only [pnLt, decide_eq_true_eq] at h
  simp only [pnLe, decide_eq_true_eq]
  exact Int.le_of_lt h

theorem pnLe_refl (a : PyNum) : pnLe a a = true := by
  simp only [pnLe, decide_eq_true_eq]
  exact le_refl _

theorem pnLt_of_lt_of_le {a b c : PyNum} (hb : 0 < ((b.den : Nat) : Int))
    (hc : 0 < ((c.den : Nat) : Int)) (h1 : pnLt a b = true) (h2 : pnLe b c = true) :
    pnLt a c = true := by
  simp only [pnLt, pnLe, decide_eq_true_eq] at h1 h2 ⊢
  have ha : (0 : Int) ≤ (a.den : Int) := Int.ofNat_nonneg _
  nlinarith

theorem pnLt_of_le_of_lt {a b c : PyNum} (ha : 0 < ((a.den : Nat) : Int))
    (hb : 0 < ((b.den : Nat) : Int)) (hc : 0 < ((c.den : Nat) : Int))
    (h1 : pnLe a b = true) (h2 : pnLt b c = true) :
    pnLt a c = true := by
  simp only [pnLt, pnLe, decide_eq_true_eq] at h1 h2 ⊢
  nlinarith

theorem pnLe_trans {a b c : PyNum} (hb : 0 < ((b.den : Nat) : Int))
    (hc : 0 < ((c.den : Nat) : Int)) (h1 : pnLe a b = true) (h2 : pnLe b c = true) :
    pnLe a c = true := by
  simp only [pnLe, decide_eq_true_eq] at h1 h2 ⊢
  have ha : (0 : Int) ≤ (a.den : Int) := Int.ofNat_nonneg _
  nlinarith

/-! Theorems for the claims. -/

/-- C1: for every item block, when the extracted Price and Total are both
non-empty and the price value is nonzero, the Quantity field is the rendered
4-decimal rounding of Total divided by Price; when Price or Total is empty,
or the price value is zero, the Quantity field is the empty string. -/
theorem C1_quantity_invariant (bl : List String) :
    ((parse_block bl).price ≠ "" → (parse_block bl).total ≠ "" →
      pnZero (ratVal ((parse_block bl).price)) = false →
      (parse_block bl).quantity
        = pyRound4Str (pnDiv (ratVal ((parse_block bl).total)) (ratVal ((parse_block bl).price))))
    ∧ ((parse_block bl).price = "" ∨ (parse_block bl).total = ""
        ∨ pnZero (ratVal ((parse_block bl).price)) = true →
      (parse_block bl).quantity = "") := by
  have hq : (parse_block bl).quantity = blockQuantity bl := rfl
  have hp : (parse_block bl).price = blockPrice bl := rfl
  have ht : (parse_block bl).total = blockTotal bl := rfl
  rw [hq, hp, ht]
  unfold blockQuantity
  constructor
  · intro h1 h2 h3
    rw [if_pos ⟨h1, h2⟩, if_neg (by simp [h3])]
  · rintro (h | h | h)
    · rw [if_neg (by simp [h])]
    · rw [if_neg (by simp [h])]
    · by_cases hc : blockPrice bl ≠ "" ∧ blockTotal bl ≠ ""
      · rw [if_pos hc, if_pos h]
      · rw [if_neg hc]

/-- Concrete instance of the quantity invariant. -/
theorem C1_quantity_witness :
    (parse_block ["9.9", "Delivery Date:", "21.0000"]).quantity
      = pyRound4Str (pnDiv (ratVal ((parse_block ["9.9", "Delivery Date:", "21.0000"]).total))
          (ratVal ((parse_block ["9.9", "Delivery Date:", "21.0000"]).price)))
    ∧ (parse_block ["9.9", "Delivery Date:", "21.0000"]).quantity = "2.1212" :=
  ⟨(C1_quantity_invariant _).1 (by decide) (by decide) (by decide), by decide⟩

/-- C8: a completed block whose lines contain the substring page
(case-insensitive) is discarded at the completing step: no record is
emitted, the buffer is cleared, and the state returns to seeking a start
marker. -/
theorem C8_page_marker_drop (s : SegState) (l : String)
    (h1 : s.insideTable = true) (h2 : stopLine (pyStrip l) = false)
    (h3 : ddLine (pyStrip l) = false) (h4 : s.waitingForDate = true)
    (h5 : dateMatchLine (pyStrip l) = true)
    (h6 : ((s.currentBlock ++ [pyStrip l]) ++ [pyStrip l]).any containsPage = true) :
    segStep s l = { s with
      currentBlock := [], waitingForDate := false, insideTable := false,
      prevLine := "" } := by
  unfold segStep
  rw [if_neg (by simp [h1]), if_neg (by simp [h2])]
  simp only []
  rw [if_neg (by simp [h3]), if_pos (by simp [h4]), if_pos (by simp [h5]),
    if_pos (by simpa using h6)]

/-- Concrete instance of the page-marker discard. -/
theorem C8_page_marker_witness :
    segStep
      { insideTable := true, blocks := [], currentBlock := ["Page 2 of 5", "Delivery Date:"],
        waitingForDate := true, prevLine := "", startMarkerFound := true } "1/2/2024"
      = { insideTable := false, blocks := [], currentBlock := [],
          waitingForDate := false, prevLine := "", startMarkerFound := true } :=
  C8_page_marker_drop _ _ rfl (by decide) (by decide) rfl (by decide) (by decide)

/-- C9: rows are assembled only when the document date is non-empty: a
document with an empty extracted date contributes no rows whatever its item
list, and every assembled row carries that non-empty date. -/
theorem C9_empty_date_policy (po : HeaderInfo) (blocks : List ItemData) :
    (po.documentDate = "" → assembleRows po blocks = [])
    ∧ (∀ r ∈ assembleRows po blocks, r.poIssueDate ≠ "") := by
  constructor
  · intro h
    simp [assembleRows, h]
  · intro r hr
    simp only [assembleRows, List.mem_filterMap] at hr
    obtain ⟨b, _, hsome⟩ := hr
    by_cases hd : po.documentDate = ""
    · simp [hd] at hsome
    · rw [if_neg hd] at hsome
      have hrw : rowOf po b = r := Option.some.inj hsome
      rw [← hrw]
      simpa [rowOf] using hd

/-- Concrete instance of the empty-date policy. -/
theorem C9_empty_date_witness :
    assembleRows
      { documentNumber := "PO1", reference := "", paymentTerm := "", documentDate := "" }
      [parse_block []] = []
    ∧ (rowOf
        { documentNumber := "PO1", reference := "", paymentTerm := "", documentDate := "1/2/2024" }
        (parse_block [])).poIssueDate ≠ "" :=
  ⟨(C9_empty_date_policy _ _).1 rfl,
   (C9_empty_date_policy
      { documentNumber := "PO1", reference := "", paymentTerm := "", documentDate := "1/2/2024" }
      [parse_block []]).2 _ (by decide)⟩

theorem findAfter_eq_lineAfter (pre : String) :
    ∀ (bl : List String) (i : Nat),
      (findAfter pre i bl).map Prod.snd = (lineAfterFirstMatch pre bl).map pyStrip := by
  intro bl
  induction bl with
  | nil => intro i; rfl
  | cons x t ih =>
    intro i
    cases t with
    | nil =>
      by_cases h : pyStartsWith pre x = true <;>
        simp [findAfter, lineAfterFirstMatch, h]
    | cons y t2 =>
      by_cases h : pyStartsWith pre x = true
      · simp [findAfter, lineAfterFirstMatch, h]
      · simp only [findAfter, lineAfterFirstMatch, h]
        rw [if_neg (by simp [h]), if_neg (by simp [h])]
        exact ih (i + 1)

theorem lineAfter_dup {pre d : String} (hd : pyStartsWith pre d = false) :
    ∀ b : List String,
      lineAfterFirstMatch pre (b ++ [d, d]) = lineAfterFirstMatch pre (b ++ [d]) := by
  intro b
  induction b with
  | nil => simp [lineAfterFirstMatch, hd]
  | cons x t ih =>
    by_cases h : pyStartsWith pre x = true
    · simp only [List.cons_append, lineAfterFirstMatch, h, if_true]
      cases t <;> simp
    · simp only [List.cons_append, lineAfterFirstMatch, h]
      rw [if_neg (by simp), if_neg (by simp)]
      exact ih

/-- C10: the completing step appends the date line a second time, so the
block handed to the parser ends with two equal copies of the date line; the
Delivery Date field is read from the line immediately following the first
line starting with the delivery-date label, and duplicating the final date
line does not change it. -/
theorem C10_duplicate_date_line :
    (∀ (s : SegState) (l : String),
      s.insideTable = true → stopLine (pyStrip l) = false → ddLine (pyStrip l) = false →
      s.waitingForDate = true → dateMatchLine (pyStrip l) = true →
      ((s.currentBlock ++ [pyStrip l]) ++ [pyStrip l]).any containsPage = false →
      segStep s l = { s with
        blocks := s.blocks ++ [parse_block ((s.currentBlock ++ [pyStrip l]) ++ [pyStrip l])],
        currentBlock := [], waitingForDate := false })
    ∧ (∀ bl : List String,
        (parse_block bl).deliveryDate
          = ((lineAfterFirstMatch "Delivery Date:" bl).map pyStrip).getD "")
    ∧ (∀ (b : List String) (d : String), ddLine d = false →
        (parse_block (b ++ [d, d])).deliveryDate = (parse_block (b ++ [d])).deliveryDate) := by
  refine ⟨?_, ?_, ?_⟩
  · intro s l h1 h2 h3 h4 h5 h6
    unfold segStep
    rw [if_neg (by simp [h1]), if_neg (by simp [h2])]
    simp only []
    rw [if_neg (by simp [h3]), if_pos (by simp [h4]), if_pos (by simp [h5]),
      if_neg (by simpa using h6)]
  · intro bl
    have h : (parse_block bl).deliveryDate
        = ((findAfter "Delivery Date:" 0 bl).map Prod.snd).getD "" := rfl
    rw [h, findAfter_eq_lineAfter]
  · intro b d hd
    have h1 : (parse_block (b ++ [d, d])).deliveryDate
        = ((findAfter "Delivery Date:" 0 (b ++ [d, d])).map Prod.snd).getD "" := rfl
    have h2 : (parse_block (b ++ [d])).deliveryDate
        = ((findAfter "Delivery Date:" 0 (b ++ [d])).map Prod.snd).getD "" := rfl
    rw [h1, h2, findAfter_eq_lineAfter, findAfter_eq_lineAfter, lineAfter_dup hd]

/-- Concrete instance of the duplicated-date behaviour. -/
theorem C10_duplicate_date_witness :
    segStep
      { insideTable := true, blocks := [], currentBlock := ["Delivery Date:"],
        waitingForDate := true, prevLine := "", startMarkerFound := true } "1/2/2024"
      = { insideTable := true,
          blocks := [parse_block ["Delivery Date:", "1/2/2024", "1/2/2024"]],
          currentBlock := [], waitingForDate := false, prevLine := "",
          startMarkerFound := true }
    ∧ (parse_block ["Delivery Date:", "1/2/2024", "1/2/2024"]).deliveryDate
        = ((lineAfterFirstMatch "Delivery Date:" ["Delivery Date:", "1/2/2024", "1/2/2024"]).map
            pyStrip).getD ""
    ∧ (parse_block (["Delivery Date:", "5/6/2024"] ++ ["9/9/2024", "9/9/2024"])).deliveryDate
        = (parse_block (["Delivery Date:", "5/6/2024"] ++ ["9/9/2024"])).deliveryDate :=
  ⟨C10_duplicate_date_line.1 _ _ rfl (by decide) (by decide) rfl (by decide) (by decide),
   C10_duplicate_date_line.2.1 _,
   C10_duplicate_date_line.2.2 _ _ (by decide)⟩

theorem pyMaxRat_spec (xs : List String) : ∀ x : String,
    ∃ pre suf, x :: xs = pre ++ pyMaxRat x xs :: suf
      ∧ (∀ y ∈ pre, pnLt (ratVal y) (ratVal (pyMaxRat x xs)) = true)
      ∧ (∀ y ∈ x :: xs, pnLe (ratVal y) (ratVal (pyMaxRat x xs)) = true) := by
  induction xs with
  | nil =>
    intro x
    exact ⟨[], [], rfl, by simp, by simp [pyMaxRat, pnLe_refl]⟩
  | cons y ys ih =>
    intro x
    have hstep : pyMaxRat x (y :: ys)
        = pyMaxRat (if pnLt (ratVal x) (ratVal y) then y else x) ys := rfl
    by_cases h : pnLt (ratVal x) (ratVal y) = true
    · rw [hstep, if_pos h]
      obtain ⟨pre, suf, heq, hpre, hall⟩ := ih y
      have hxm : pnLt (ratVal x) (ratVal (pyMaxRat y ys)) = true :=
        pnLt_of_lt_of_le (ratVal_den_pos y) (ratVal_den_pos _) h
          (hall y (List.mem_cons_self _ _))
      refine ⟨x :: pre, suf, ?_, ?_, ?_⟩
      · rw [List.cons_append, ← heq]
      · intro z hz
        rcases List.mem_cons.mp hz with hz | hz
        · subst hz; exact hxm
        · exact hpre z hz
      · intro z hz
        rcases List.mem_cons.mp hz with hz | hz
        · subst hz; exact pnLe_of_lt hxm
        · exact hall z hz
    · rw [hstep, if_neg h]
      obtain ⟨pre, suf, heq, hpre, hall⟩ := ih x
      have hyx : pnLe (ratVal y) (ratVal x) = true := pnLe_of_not_lt (by simpa using h)
      have hym : pnLe (ratVal y) (ratVal (pyMaxRat x ys)) = true :=
        pnLe_trans (ratVal_den_pos x) (ratVal_den_pos _) hyx
          (hall x (List.mem_cons_self _ _))
      cases pre with
      | nil =>
        rw [List.nil_append] at heq
        injection heq with h1 h2
        refine ⟨[], y :: suf, ?_, ?_, ?_⟩
        · rw [List.nil_append, ← h1, ← h2]
        · intro z hz
          exact absurd hz (List.not_mem_nil z)
        · intro z hz
          rcases List.mem_cons.mp hz with hz | hz
          · rw [hz]; exact hall x (List.mem_cons_self _ _)
          · rcases List.mem_cons.mp hz with hz | hz
            · rw [hz]; exact hym
            · exact hall z (List.mem_cons_of_mem _ hz)
      | cons p ptail =>
        rw [List.cons_append] at heq
        injection heq with h1 h2
        have hxlt : pnLt (ratVal x) (ratVal (pyMaxRat x ys)) = true := by
          have hp := hpre p (List.mem_cons_self _ _)
          rwa [← h1] at hp
        refine ⟨x :: y :: ptail, suf, ?_, ?_, ?_⟩
        · rw [List.cons_append, List.cons_append, ← h2]
        · intro z hz
          rcases List.mem_cons.mp hz with hz | hz
          · subst hz; exact hxlt
          · rcases List.mem_cons.mp hz with hz | hz
            · subst hz
              exact pnLt_of_le_of_lt (ratVal_den_pos _) (ratVal_den_pos x)
                (ratVal_den_pos _) hyx hxlt
            · exact hpre z (List.mem_cons_of_mem _ hz)
        · intro z hz
          rcases List.mem_cons.mp hz with hz | hz
          · rw [hz]; exact hall x (List.mem_cons_self _ _)
          · rcases List.mem_cons.mp hz with hz | hz
            · rw [hz]; exact hym
            · exact hall z (List.mem_cons_of_mem _ hz)

/-- C7: among the lines matching exactly digits-dot-digits other than the
literal 0.0000, the Price is the first in document order and the Total is a
numerically maximal one, with every line before its occurrence strictly
smaller (the first-encountered maximal line); when no such line exists both
fields are empty. -/
theorem C7_price_total_selection (bl : List String) :
    (floatLines bl = [] → (parse_block bl).price = "" ∧ (parse_block bl).total = "")
    ∧ (∀ x xs, floatLines bl = x :: xs →
        (parse_block bl).price = x
        ∧ ∃ pre suf, floatLines bl = pre ++ (parse_block bl).total :: suf
            ∧ (∀ y ∈ pre, pnLt (ratVal y) (ratVal ((parse_block bl).total)) = true)
            ∧ (∀ y ∈ floatLines bl, pnLe (ratVal y) (ratVal ((parse_block bl).total)) = true)) := by
  have hp : (parse_block bl).price = blockPrice bl := rfl
  have ht : (parse_block bl).total = blockTotal bl := rfl
  rw [hp, ht]
  constructor
  · intro h
    unfold blockPrice blockTotal
    rw [h]
    exact ⟨rfl, rfl⟩
  · intro x xs h
    unfold blockPrice blockTotal
    rw [h]
    refine ⟨rfl, ?_⟩
    obtain ⟨pre, suf, heq, hpre, hall⟩ := pyMaxRat_spec xs x
    exact ⟨pre, suf, heq, hpre, hall⟩

/-- Concrete instance of the price and total selection. -/
theorem C7_price_total_witness :
    (parse_block ["3.5", "x", "10.25", "10.25", "2.0"]).price = "3.5"
    ∧ (parse_block ["3.5", "x", "10.25", "10.25", "2.0"]).total = "10.25" :=
  ⟨((C7_price_total_selection _).2 "3.5" ["10.25", "10.25", "2.0"] (by decide)).1, by decide⟩

theorem lowerStr_length_eq {a b : String} (h : lowerStr a = lowerStr b) :
    a.length = b.length := by
  have hd : a.data.map lowChar = b.data.map lowChar := congrArg String.data h
  have : (a.data.map lowChar).length = (b.data.map lowChar).length := by rw [hd]
  simpa using this

theorem maxByLen_eq_first {a b : String} (h : lowerStr a = lowerStr b) :
    maxByLen a b = a := by
  unfold maxByLen
  rw [if_neg]
  rw [lowerStr_length_eq h]
  exact lt_irrefl _

theorem collapseSearch_eq_first (words : List String) :
    ∀ n, collapseSearch words n = collapseSearchFirst words n := by
  intro n
  induction n with
  | zero => rfl
  | succ n ih =>
    unfold collapseSearch collapseSearchFirst
    simp only []
    by_cases h : lowerStr (joinSpace (words.take (n + 1)))
        = lowerStr (joinSpace (words.drop (words.length - (n + 1))))
    · rw [if_pos h, if_pos h]
      by_cases h2 : middleHasArtifact
          (joinSpace ((words.drop (n + 1)).take (words.length - 2 * (n + 1)))) = true
      · rw [if_pos h2, if_pos h2, maxByLen_eq_first h]
      · rw [if_neg h2, if_neg h2]
        exact ih
    · rw [if_neg h, if_neg h]
      exact ih

/-- C5 counterexample: on the description ABC 1.5 abc, the spans ABC and abc
are case-insensitively equal and the middle holds a decimal token; the
cleaner returns the prefix span ABC, while the selection rule as the claim
words it (ties by lexicographic comparison) would return abc. -/
theorem C5_lex_tie_counterexample :
    clean_description "ABC 1.5 abc" = "ABC"
    ∧ cleanDescriptionLex "ABC 1.5 abc" = "abc"
    ∧ clean_description "ABC 1.5 abc" ≠ cleanDescriptionLex "ABC 1.5 abc" := by decide

/-- C5 amended: when the cleaner finds a longest case-insensitively equal
prefix/suffix span with a qualifying middle, it returns the prefix span
trimmed: the two spans always have equal length, so the longer-span rule
always ties and the tie resolves to the first argument, the prefix span. -/
theorem C5_span_selection_amended (s : String) :
    clean_description s = cleanDescriptionFirstSpan s := by
  simp only [clean_description, cleanDescriptionFirstSpan, collapseSearch_eq_first]

/-- C4 counterexample: cleaning is not idempotent; the cleaner maps this
input to a shorter string whose own cleaning collapses it again. -/
theorem C4_not_idempotent :
    clean_description (clean_description "a 1.5 a Each a 1.5 a")
      ≠ clean_description "a 1.5 a Each a 1.5 a" := by decide

theorem dropTrailWs_idem : ∀ l : List Char, dropTrailWs (dropTrailWs l) = dropTrailWs l := by
  intro l
  induction l with
  | nil => rfl
  | cons c t ih =>
    cases h : dropTrailWs t with
    | nil =>
      by_cases hc : pyWsChar c = true
      · simp [dropTrailWs, h, hc]
      · simp [dropTrailWs, h, hc]
    | cons d r =>
      have h2 : dropTrailWs (d :: r) = d :: r := by
        rw [← h, ih, h]
      have e1 : dropTrailWs (c :: t) = c :: d :: r := by
        rw [show dropTrailWs (c :: t)
            = (match dropTrailWs t with
                | [] => if pyWsChar c then [] else [c]
                | r => c :: r) from rfl, h]
      have e2 : dropTrailWs (c :: d :: r) = c :: d :: r := by
        rw [show dropTrailWs (c :: d :: r)
            = (match dropTrailWs (d :: r) with
                | [] => if pyWsChar c then [] else [c]
                | r => c :: r) from rfl, h2]
      rw [e1, e2]

theorem dropTrailWs_headKeep {c : Char} (t : List Char) (hc : pyWsChar c = false) :
    ∃ r, dropTrailWs (c :: t) = c :: r := by
  cases h : dropTrailWs t with
  | nil => exact ⟨[], by simp [dropTrailWs, h, hc]⟩
  | cons d r => exact ⟨d :: r, by simp [dropTrailWs, h]⟩

theorem dropLeadWs_of_head {c : Char} (t : List Char) (hc : pyWsChar c = false) :
    dropLeadWs (c :: t) = c :: t := by
  simp [dropLeadWs, List.dropWhile_cons, hc]

theorem dropLeadWs_shape : ∀ l : List Char,
    dropLeadWs l = [] ∨ ∃ c t, dropLeadWs l = c :: t ∧ pyWsChar c = false := by
  intro l
  induction l with
  | nil => exact Or.inl rfl
  | cons c t ih =>
    by_cases hc : pyWsChar c = true
    · rcases ih with h | ⟨d, r, h, hd⟩
      · exact Or.inl (by simp [dropLeadWs, List.dropWhile_cons, hc] at h ⊢; exact h)
      · refine Or.inr ⟨d, r, ?_, hd⟩
        simp only [dropLeadWs, List.dropWhile_cons, hc, if_true]
        exact h
    · exact Or.inr ⟨c, t, by simp [dropLeadWs, List.dropWhile_cons, hc], by simpa using hc⟩

theorem stripChars_idem (l : List Char) : stripChars (stripChars l) = stripChars l := by
  unfold stripChars
  rcases dropLeadWs_shape l with h | ⟨c, t, h, hc⟩
  · rw [h]; rfl
  · rw [h]
    obtain ⟨r, hr⟩ := dropTrailWs_headKeep t hc
    rw [hr, dropLeadWs_of_head r hc, ← hr, dropTrailWs_idem, hr]

theorem pyStrip_idem (s : String) : pyStrip (pyStrip s) = pyStrip s := by
  unfold pyStrip
  rw [show (String.mk (stripChars s.data)).data = stripChars s.data from rfl, stripChars_idem]

/-- C4 amended: re-running the cleaner is a no-op on every input where the
first run finds no qualifying repeated span (the result is then merely the
trimmed input, a fixed point); when a span collapse occurs the result can
collapse again, so cleaning is not idempotent in general. -/
theorem C4_idempotent_when_no_collapse (s : String)
    (h : collapseSearch (pySplitWords (pyStrip s)) ((pySplitWords (pyStrip s)).length / 2)
        = none) :
    clean_description (clean_description s) = clean_description s := by
  by_cases he : pyStrip s = ""
  · have h1 : clean_description s = "" := by simp [clean_description, he]
    rw [h1]
    decide
  · have h1 : clean_description s = pyStrip s := by
      simp only [clean_description, if_neg he, h]
    rw [h1]
    simp only [clean_description, pyStrip_idem, if_neg he, h]

/-- Concrete instance of the no-collapse idempotence. -/
theorem C4_idempotent_witness :
    collapseSearch (pySplitWords (pyStrip "hello world"))
        ((pySplitWords (pyStrip "hello world")).length / 2) = none
    ∧ clean_description (clean_description "hello world")
        = clean_description "hello world" :=
  ⟨by decide, C4_idempotent_when_no_collapse "hello world" (by decide)⟩

theorem seek_invariant : ∀ (ls : List String) (prev : String),
    noMarkerFrom prev ls = true →
    List.foldl segStep
      { insideTable := false, blocks := [], currentBlock := [], waitingForDate := false,
        prevLine := prev, startMarkerFound := false } ls
    = { insideTable := false, blocks := [], currentBlock := [], waitingForDate := false,
        prevLine := lastPrev prev ls, startMarkerFound := false } := by
  intro ls
  induction ls with
  | nil => intro prev h; rfl
  | cons l t ih =>
    intro prev h
    simp only [noMarkerFrom, Bool.and_eq_true] at h
    have hm : ¬ removeSpaces (prev ++ pyStrip l) = "Tax%Tax%" := by
      simpa using h.1
    have hstep : segStep
        { insideTable := false, blocks := [], currentBlock := [], waitingForDate := false,
          prevLine := prev, startMarkerFound := false } l
        = { insideTable := false, blocks := [], currentBlock := [], waitingForDate := false,
            prevLine := pyStrip l, startMarkerFound := false } := by
      simp only [segStep]
      rw [if_true, if_neg hm, ite_self]
    rw [List.foldl_cons, hstep]
    exact ih (pyStrip l) h.2

/-- C2 counterexample: the document whose single line is Tax % Tax %
contains no pair of consecutive lines forming the marker, yet the segmenter
finds the start marker on that line alone (the initial previous-line memory
is empty) and returns an empty block list instead of the format-mismatch
condition. -/
theorem C2_single_line_counterexample :
    pairsNoMarker (pySplitlines (normalizeThousands "Tax % Tax %")) = true
    ∧ extract_item_blocks "a.pdf" "Tax % Tax %" = Except.ok [] := by decide

/-- C2 amended: when the marker test never fires — for every position, the
previous trimmed line (the empty string before the first line) concatenated
with the current trimmed line, spaces removed, differs from Tax%Tax% —
segmentation reports the format mismatch identifying the document, and no
records are produced. -/
theorem C2_no_marker_mismatch (docName fullText : String)
    (h : noMarkerFrom "" (pySplitlines (normalizeThousands fullText)) = true) :
    extract_item_blocks docName fullText = Except.error (mismatchMsg docName) := by
  unfold extract_item_blocks segRun
  have hinv := seek_invariant (pySplitlines (normalizeThousands fullText)) "" h
  have hinit : segInit
      = { insideTable := false, blocks := [], currentBlock := [], waitingForDate := false,
          prevLine := "", startMarkerFound := false } := rfl
  rw [hinit, hinv]
  rfl

/-- Concrete instance of the format-mismatch result. -/
theorem C2_no_marker_witness :
    noMarkerFrom "" (pySplitlines (normalizeThousands "hello\nworld")) = true
    ∧ extract_item_blocks "b.pdf" "hello\nworld" = Except.error (mismatchMsg "b.pdf") :=
  ⟨by decide, C2_no_marker_mismatch "b.pdf" "hello\nworld" (by decide)⟩

theorem delCommas_noop : ∀ (l : List Char) (prev : Option Char),
    hasDCDFrom prev l = false → delCommasAux prev l = l := by
  intro l
  induction l with
  | nil => intro prev h; rfl
  | cons c t ih =>
    intro prev h
    simp only [hasDCDFrom, Bool.or_eq_false_iff] at h
    simp only [delCommasAux, h.1, Bool.false_eq_true, if_false]
    rw [ih (some c) h.2]

theorem normalizeThousands_noop (t : String) (h : hasThousandsComma t = false) :
    normalizeThousands t = t := by
  unfold normalizeThousands
  rw [delCommas_noop t.data none (by simpa [hasThousandsComma] using h)]

/-- C6 counterexample: the header searches run on the raw concatenated text,
not on the comma-normalized text of the segmenter: on the text PO1,234 the
extractor reports document number PO1, while on the normalized text it would
report PO1234. -/
theorem C6_raw_text_counterexample :
    headerOnNormalized "PO1,234" ≠ extract_po_info "PO1,234"
    ∧ (extract_po_info "PO1,234").documentNumber = "PO1"
    ∧ (headerOnNormalized "PO1,234").documentNumber = "PO1234" := by decide

/-- C6 amended: the Header Field Extractor operates on the raw concatenated
text; only the Block Segmenter input is comma-normalized. The two texts
coincide exactly when no comma is flanked by digits, and then the header
fields agree with those computed from the normalized text. -/
theorem C6_header_on_raw_text (t : String) (h : hasThousandsComma t = false) :
    extract_po_info (normalizeThousands t) = extract_po_info t := by
  rw [normalizeThousands_noop t h]

/-- Concrete instance of the header agreement without thousands commas. -/
theorem C6_header_witness :
    hasThousandsComma "PO77 due 1/2/2024" = false
    ∧ extract_po_info (normalizeThousands "PO77 due 1/2/2024")
        = extract_po_info "PO77 due 1/2/2024" :=
  ⟨by decide, C6_header_on_raw_text "PO77 due 1/2/2024" (by decide)⟩

theorem segStep_shift (s : SegState) (B : List ItemData) (f : Bool) (l : String) :
    segStep { s with blocks := B ++ s.blocks, startMarkerFound := (f || s.startMarkerFound) } l
      = { segStep s l with
          blocks := B ++ (segStep s l).blocks,
          startMarkerFound := (f || (segStep s l).startMarkerFound) } := by
  obtain ⟨it, bs, cb, w, p, smf⟩ := s
  simp only [segStep]
  cases it with
  | false =>
    by_cases h2 : removeSpaces (p ++ pyStrip l) = "Tax%Tax%"
    · simp [h2, Bool.or_true]
    · simp [h2, ite_self]
  | true =>
    by_cases h4 : stopLine (pyStrip l) = true
    · simp [h4]
    · by_cases h5 : ddLine (pyStrip l) = true
      · simp [h4, h5]
      · cases w with
        | false => simp [h4, h5]
        | true =>
          by_cases h7 : dateMatchLine (pyStrip l) = true
          · by_cases h8 : (∃ x ∈ cb, containsPage x = true) ∨ containsPage (pyStrip l) = true
            · simp [h4, h5, h7, h8]
            · simp [h4, h5, h7, h8, List.append_assoc]
          · simp [h4, h5, h7]

theorem foldl_shift : ∀ (ls : List String) (s : SegState) (B : List ItemData) (f : Bool),
    List.foldl segStep
      { s with blocks := B ++ s.blocks, startMarkerFound := (f || s.startMarkerFound) } ls
    = { List.foldl segStep s ls with
        blocks := B ++ (List.foldl segStep s ls).blocks,
        startMarkerFound := (f || (List.foldl segStep s ls).startMarkerFound) } := by
  intro ls
  induction ls with
  | nil => intro s B f; rfl
  | cons l t ih =>
    intro s B f
    rw [List.foldl_cons, List.foldl_cons, segStep_shift]
    exact ih (segStep s l) B f

/-- C3 counterexample: a stop marker does not clear the block buffer or the
awaiting-date flag, so a region left incomplete at its stop marker leaks its
collected lines into the next region: the two regions are not processed
independently, and the emitted record even carries the item code collected
in the earlier region. -/
theorem C3_region_leak_counterexample :
    (segRun (["Tax %", "Tax %", "Item Code:", "OLDCODE", "Delivery Date:", "▌Tax Details"]
        ++ ["Tax %", "Tax %", "1/2/2024"])).blocks
      ≠ (segRun ["Tax %", "Tax %", "Item Code:", "OLDCODE", "Delivery Date:", "▌Tax Details"]).blocks
        ++ (segRun ["Tax %", "Tax %", "1/2/2024"]).blocks
    ∧ ((segRun (["Tax %", "Tax %", "Item Code:", "OLDCODE", "Delivery Date:", "▌Tax Details"]
        ++ ["Tax %", "Tax %", "1/2/2024"])).blocks.map ItemData.itemCode = ["OLDCODE"]) := by decide

/-- C3 amended: segmentation is compositional across any split point at
which the segmenter is outside a table with an empty block buffer, not
awaiting a date, and with empty previous-line memory (in particular right
after a stop marker that completes a region cleanly): the emitted records of
the concatenation are those of the two parts concatenated in document order,
and the start-marker flag is their disjunction. -/
theorem C3_region_compositional (ls1 ls2 : List String)
    (h1 : (segRun ls1).insideTable = false)
    (h2 : (segRun ls1).currentBlock = [])
    (h3 : (segRun ls1).waitingForDate = false)
    (h4 : (segRun ls1).prevLine = "") :
    (segRun (ls1 ++ ls2)).blocks = (segRun ls1).blocks ++ (segRun ls2).blocks
    ∧ (segRun (ls1 ++ ls2)).startMarkerFound
        = ((segRun ls1).startMarkerFound || (segRun ls2).startMarkerFound) := by
  have hfold : segRun (ls1 ++ ls2) = List.foldl segStep (segRun ls1) ls2 := by
    unfold segRun
    rw [List.foldl_append]
  rcases hsr : segRun ls1 with ⟨it, bs, cb, w, p, smf⟩
  rw [hsr] at h1 h2 h3 h4
  simp only [] at h1 h2 h3 h4
  subst h1; subst h2; subst h3; subst h4
  have hbase := foldl_shift ls2 segInit bs smf
  have hb : ({ segInit with
      blocks := bs ++ segInit.blocks,
      startMarkerFound := (smf || segInit.startMarkerFound) } : SegState)
      = { insideTable := false, blocks := bs, currentBlock := [], waitingForDate := false,
          prevLine := "", startMarkerFound := smf } := by
    simp [segInit]
  rw [hb] at hbase
  rw [hfold, hsr, hbase]
  constructor <;> simp [segRun]

/-- Concrete instance of the compositional segmentation: two complete
regions, each ending at its stop marker, yield the concatenation of their
records. -/
theorem C3_region_witness :
    (segRun ["Tax %", "Tax %", "Item Code:", "A1", "Delivery Date:", "1/2/2024",
        "▌Tax Details"]).insideTable = false
    ∧ (segRun (["Tax %", "Tax %", "Item Code:", "A1", "Delivery Date:", "1/2/2024",
        "▌Tax Details"]
        ++ ["Tax %", "Tax %", "Item Code:", "B2", "Delivery Date:", "3/4/2024"])).blocks
      = (segRun ["Tax %", "Tax %", "Item Code:", "A1", "Delivery Date:", "1/2/2024",
          "▌Tax Details"]).blocks
        ++ (segRun ["Tax %", "Tax %", "Item Code:", "B2", "Delivery Date:", "3/4/2024"]).blocks :=
  ⟨by decide,
   (C3_region_compositional
      ["Tax %", "Tax %", "Item Code:", "A1", "Delivery Date:", "1/2/2024", "▌Tax Details"]
      ["Tax %", "Tax %", "Item Code:", "B2", "Delivery Date:", "3/4/2024"]
      (by decide) (by decide) (by decide) (by decide)).1⟩
